import Mathlib

/-!
Shallow embedding of `app/src/main/cpp/qwen3_embedding_jni.cpp`, the native
embedding engine of KaoYanAssistant.  The llama.cpp library is an external
collaborator: its observable behaviour (tokenizer counts and buffer contents,
decode results, pooled-embedding output, model/context construction success)
is a parameter `LlamaEnv` of the development, a family of deterministic
functions.  Machine floats are modelled as real numbers; JNI nullable
pointers/references as `Option`; the per-session mutex is not modelled (the
embedding gives each call the whole session, which is what the lock
guarantees).  Resource acquisition and release (model, context, session
storage, decode batch) are recorded as an event trace so that leak-freedom
and release-order claims are statable.
-/

namespace Qwen3Jni

/-- Resource events of one native call, in program order: `new`/`delete` of the
session storage, model load/free, context construction/free, batch
construction/free, the memory clear and the decode step. -/
inductive Event where
  | newState
  | deleteState
  | modelLoadOk
  | modelFree
  | ctxInitOk
  | ctxFree
  | memClearEv
  | batchInitEv
  | batchFreeEv
  | decodeCall
  deriving DecidableEq, Repr

/-- Mutable state of a `llama_context`: the sequence memory (key/value cache),
of an abstract type `Mem`, and the pooled seq-0 embedding output buffer that
`llama_get_embeddings_seq(ctx, 0)` reads (`none` models a null pointer). -/
structure CtxState (Mem : Type) where
  mem : Mem
  outEmb : Option (List ℝ)

/-- The C `EmbeddingState` struct.  `model` records whether the model pointer
is non-null (the model's behaviour itself lives in `LlamaEnv`); `ctx = none`
models a null context pointer.  The mutex field is not represented. -/
structure EmbeddingState (Mem : Type) where
  model : Bool
  ctx : Option (CtxState Mem)
  n_embd : Nat
  n_ctx : Nat

/-- One slot of a `llama_batch` as the engine fills it: token id, position,
number of sequence ids, the sequence id, and the output (logits) flag. -/
structure BatchEntry where
  token : Int
  pos : Int
  n_seq_id : Int
  seq_id : Int
  logits : Bool
  deriving DecidableEq, Repr

/-- Observable behaviour of the external llama.cpp library, fixed for one
loaded model.  `tokCount text max` is the return value of `llama_tokenize`
with a buffer of `max` slots; `tokBuf text max` is what that call leaves in
the buffer.  `decode mem batch` is `llama_decode` run on a context whose
sequence memory is `mem`: its result code, the memory afterwards, and the
pooled seq-0 embedding buffer it leaves behind.  `memClear` is the memory
after `llama_memory_clear(mem, true)`; `loadOk`/`ctxOk` are the success of
`llama_model_load_from_file`/`llama_init_from_model`; `initMem` the fresh
context's memory; `allocOk` the success of `NewFloatArray`. -/
structure LlamaEnv (Mem : Type) where
  tokCount : String → Nat → Int
  tokBuf : String → Nat → List Int
  loadOk : String → Bool
  ctxOk : Bool
  initMem : Mem
  n_embd : Nat
  n_ctxRealized : Nat
  memClear : Mem
  decode : Mem → List BatchEntry → Int × Mem × Option (List ℝ)
  allocOk : Bool

/-- `std::vector::resize(n)`: keep the first `n` elements, pad with
value-initialized elements (`pad`) when growing.  The result always has
length `n`. -/
def listResize {α : Type} (l : List α) (n : Nat) (pad : α) : List α :=
  l.take n ++ List.replicate (n - l.length) pad

/-- The `tokenize` adapter (lines 42-64 of the C file): empty text yields the
empty sequence; otherwise a buffer of `max_tokens` value-initialized slots is
passed to `llama_tokenize`; a negative count is negated and clamped to
`max_tokens`; the vector is resized to the final count. -/
def tokenize {Mem : Type} (env : LlamaEnv Mem) (text : String) (max_tokens : Nat) :
    List Int :=
  if text = "" then []
  else
    let tokens := listResize (env.tokBuf text max_tokens) max_tokens 0
    let count := env.tokCount text max_tokens
    let count := if count < 0 then min (-count) (max_tokens : Int) else count
    listResize tokens count.toNat 0

/-- The running sum `sum += v * v` of `normalize_l2`'s first loop. -/
def sqSum (values : List ℝ) : ℝ :=
  values.foldl (fun s v => s + v * v) 0

/-- `normalize_l2` (lines 66-78 of the C file): if the sum of squares is ≤ 0
the vector is left unchanged; otherwise every element is multiplied in place
by `inv = 1 / sqrt(sum)`. -/
noncomputable def normalize_l2 (values : List ℝ) : List ℝ :=
  let sum := sqSum values
  if sum ≤ 0 then values
  else
    let inv := 1 / Real.sqrt sum
    values.map (fun v => v * inv)

/-- The batch-population loop of `nativeEmbed` (lines 177-185): slot `i` gets
`tokens[i]`, position `i`, one sequence id, sequence id 0, logits flag set. -/
def buildBatch (tokens : List Int) : List BatchEntry :=
  (List.range tokens.length).map
    (fun i => { token := tokens.getD i 0, pos := (i : Int), n_seq_id := 1,
                seq_id := 0, logits := true })

/-- The defensive truncation of `nativeEmbed` (lines 171-173):
`if (tokens.size() > n_ctx) tokens.resize(n_ctx)`. -/
def truncTokens (tokens : List Int) (n_ctx : Nat) : List Int :=
  if tokens.length > n_ctx then tokens.take n_ctx else tokens

/-- `nativeInit` (lines 81-136).  A null path string (`GetStringUTFChars`
returning null) fails before any allocation.  Otherwise the session storage
is allocated, the model loaded (failure frees the storage), the context
constructed (failure frees the model, then the storage), and on success the
session records `n_embd` and the realized `n_ctx`.  `ensure_backend` is
process-global one-time runtime initialization with no per-session observable
effect and is not modelled. -/
def nativeInit {Mem : Type} (env : LlamaEnv Mem) (model_path : Option String) :
    Option (EmbeddingState Mem) × List Event :=
  match model_path with
  | none => (none, [])
  | some path =>
    if env.loadOk path = false then
      (none, [Event.newState, Event.deleteState])
    else if env.ctxOk = false then
      (none, [Event.newState, Event.modelLoadOk, Event.modelFree, Event.deleteState])
    else
      (some { model := true, ctx := some { mem := env.initMem, outEmb := none },
              n_embd := env.n_embd, n_ctx := env.n_ctxRealized },
       [Event.newState, Event.modelLoadOk, Event.ctxInitOk])

/-- `nativeEmbed` (lines 138-214), returning the marshalled float array (or
null), the session state as the call leaves it, and the call's resource
events.  Null handle, missing model/context and null text fail before the
lock; then the text is tokenized bounded by `n_ctx` (empty result fails), the
token list defensively truncated, the context memory cleared, the batch built
and decoded, the batch freed, and on decode success the pooled seq-0
embedding is copied out (`n_embd` floats), L2-normalized and marshalled. -/
noncomputable def nativeEmbed {Mem : Type} (env : LlamaEnv Mem)
    (handle : Option (EmbeddingState Mem)) (text : Option String) :
    Option (List ℝ) × Option (EmbeddingState Mem) × List Event :=
  match handle with
  | none => (none, none, [])
  | some state =>
    match state.ctx, state.model with
    | none, _ => (none, some state, [])
    | some _, false => (none, some state, [])
    | some ctx0, true =>
      match text with
      | none => (none, some state, [])
      | some text_str =>
        let max_tokens := state.n_ctx
        let tokens := tokenize env text_str max_tokens
        if tokens = [] then (none, some state, [])
        else
          let tokens := truncTokens tokens state.n_ctx
          let ctx1 : CtxState Mem := { mem := env.memClear, outEmb := ctx0.outEmb }
          let batch := buildBatch tokens
          match env.decode ctx1.mem batch with
          | (decode_result, mem2, emb2) =>
            let ctx2 : CtxState Mem := { mem := mem2, outEmb := emb2 }
            let state2 := { state with ctx := some ctx2 }
            let ev := [Event.memClearEv, Event.batchInitEv, Event.decodeCall,
                       Event.batchFreeEv]
            if decode_result ≠ 0 then (none, some state2, ev)
            else
              match ctx2.outEmb with
              | none => (none, some state2, ev)
              | some embd =>
                let output := (List.range state.n_embd).map (fun i => embd.getD i 0)
                let output := normalize_l2 output
                if env.allocOk then (some output, some state2, ev)
                else (none, some state2, ev)

/-- `nativeRelease` (lines 216-235): a null handle is a no-op; otherwise the
context is freed if present, then the model if present, then the session
storage.  The trace records the releases in program order. -/
def nativeRelease {Mem : Type} (handle : Option (EmbeddingState Mem)) : List Event :=
  match handle with
  | none => []
  | some state =>
    (if state.ctx.isSome then [Event.ctxFree] else []) ++
    (if state.model then [Event.modelFree] else []) ++
    [Event.deleteState]

/-- The copy loop of `nativeEmbed` (lines 201-204 of the C file):
`output[i] = embd[i]` for `i < n_embd`, copying the context's pooled
embedding vector into a fresh host-owned buffer. -/
def pooledCopy (embd : List ℝ) (n_embd : Nat) : List ℝ :=
  (List.range n_embd).map fun i => embd.getD i 0

/-- The result component of the locked region of `nativeEmbed` on a live
session, abstracted over everything the code actually consumes: the
environment, `n_embd`, `n_ctx` and the text.  Notably the prior context
memory and prior output buffer do not appear — the memory clear feeds
`env.memClear`, not the prior memory, into the decode step. -/
noncomputable def embedResult {Mem : Type} (env : LlamaEnv Mem) (ne nc : Nat)
    (text : String) : Option (List ℝ) :=
  let toks := truncTokens (tokenize env text nc) nc
  match env.decode env.memClear (buildBatch toks) with
  | (decode_result, _, emb2) =>
    if decode_result ≠ 0 then none
    else
      match emb2 with
      | none => none
      | some embd =>
        if env.allocOk then
          some (normalize_l2 ((List.range ne).map fun i => embd.getD i 0))
        else none

/-! ### Concrete instantiations used by the witnesses -/

/-- A session environment over `Mem := Unit` in which everything succeeds:
the tokenizer produces one token (`7`), decode succeeds and leaves the
all-zero pooled vector of width 2, the loader and context constructor
succeed, and the output array allocates. -/
noncomputable def envW : LlamaEnv Unit where
  tokCount := fun _ _ => 1
  tokBuf := fun _ _ => [7]
  loadOk := fun _ => true
  ctxOk := true
  initMem := ()
  n_embd := 2
  n_ctxRealized := 4
  memClear := ()
  decode := fun _ _ => (0, (), some [0, 0])
  allocOk := true

/-- `envW` with a failing decode step. -/
noncomputable def envDecodeFail : LlamaEnv Unit :=
  { envW with decode := fun _ _ => (1, (), none) }

/-- `envW` with a failing model loader. -/
noncomputable def envLoadFail : LlamaEnv Unit :=
  { envW with loadOk := fun _ => false }

/-- A live session state matching `envW`: model and context present,
`n_embd = 2`, `n_ctx = 4`. -/
def stW : EmbeddingState Unit where
  model := true
  ctx := some { mem := (), outEmb := none }
  n_embd := 2
  n_ctx := 4

/-- The session state `nativeInit envW (some path)` constructs. -/
def stInitW : EmbeddingState Unit where
  model := true
  ctx := some { mem := (), outEmb := none }
  n_embd := 2
  n_ctx := 4

/-! ### Helper lemmas -/

theorem length_listResize {α : Type} (l : List α) (n : Nat) (pad : α) :
    (listResize l n pad).length = n := by
  simp only [listResize, List.length_append, List.length_take, List.length_replicate]
  omega

theorem tokenize_length_le {Mem : Type} (env : LlamaEnv Mem) (text : String)
    (max_tokens : Nat)
    (hc : 0 ≤ env.tokCount text max_tokens →
      env.tokCount text max_tokens ≤ (max_tokens : Int)) :
    (tokenize env text max_tokens).length ≤ max_tokens := by
  by_cases ht : text = ""
  · simp [tokenize, ht]
  · simp only [tokenize, if_neg ht, length_listResize]
    split
    · omega
    · rename_i hpos
      have := hc (by omega)
      omega

/-- Running `nativeEmbed` on a live session whose tokenization is non-empty:
the result is `embedResult` (which does not read the prior context state),
the context is left holding the decode's memory and output buffer, and the
trace is clear, batch-construct, decode, batch-free. -/
theorem nativeEmbed_core {Mem : Type} (env : LlamaEnv Mem) (c : CtxState Mem)
    (ne nc : Nat) (text : String) (htok : ¬ tokenize env text nc = []) :
    nativeEmbed env (some ⟨true, some c, ne, nc⟩) (some text)
      = (embedResult env ne nc text,
         some ⟨true, some ⟨(env.decode env.memClear
             (buildBatch (truncTokens (tokenize env text nc) nc))).2.1,
           (env.decode env.memClear
             (buildBatch (truncTokens (tokenize env text nc) nc))).2.2⟩, ne, nc⟩,
         [Event.memClearEv, Event.batchInitEv, Event.decodeCall,
          Event.batchFreeEv]) := by
  rcases hdec : env.decode env.memClear (buildBatch (truncTokens (tokenize env text nc) nc))
    with ⟨dres, mem2, emb2⟩
  simp only [nativeEmbed, embedResult, if_neg htok, hdec]
  by_cases hd : dres = 0
  · subst hd
    cases emb2 with
    | none => simp
    | some embd =>
      by_cases ha : env.allocOk <;> simp [ha]
  · simp [hd]

theorem sqSum_eq_sum (v : List ℝ) : sqSum v = (v.map fun x => x * x).sum := by
  have aux : ∀ (l : List ℝ) (a : ℝ),
      l.foldl (fun s x => s + x * x) a = a + (l.map fun x => x * x).sum := by
    intro l
    induction l with
    | nil => intro a; simp
    | cons x xs ih => intro a; simp only [List.foldl_cons, List.map_cons, List.sum_cons, ih]; ring
  simpa [sqSum] using aux v 0

theorem sqSum_nonneg (v : List ℝ) : 0 ≤ sqSum v := by
  rw [sqSum_eq_sum]
  apply List.sum_nonneg
  intro x hx
  rcases List.mem_map.mp hx with ⟨y, _, rfl⟩
  exact mul_self_nonneg y

theorem sqSum_map_mul (v : List ℝ) (c : ℝ) :
    sqSum (v.map fun x => x * c) = sqSum v * (c * c) := by
  rw [sqSum_eq_sum, sqSum_eq_sum]
  induction v with
  | nil => simp
  | cons x xs ih =>
    simp only [List.map_cons, List.sum_cons, ih]
    ring

theorem length_normalize_l2 (v : List ℝ) : (normalize_l2 v).length = v.length := by
  simp only [normalize_l2]
  split
  · rfl
  · simp

theorem sqSum_normalize_l2 (v : List ℝ) (h : 0 < sqSum v) :
    sqSum (normalize_l2 v) = 1 := by
  have hne : ¬ sqSum v ≤ 0 := not_le.mpr h
  simp only [normalize_l2, hne, if_false]
  rw [sqSum_map_mul]
  have hmul : (1 / Real.sqrt (sqSum v)) * (1 / Real.sqrt (sqSum v)) = 1 / sqSum v := by
    rw [div_mul_div_comm, one_mul, Real.mul_self_sqrt h.le]
  rw [hmul, mul_one_div, div_self (ne_of_gt h)]

/-! ### Claim theorems -/

/-- C5: `normalize_l2` computes the sum of squares of the vector's elements;
a sum ≤ 0 leaves the vector unchanged (in particular every all-zero vector of
length N is returned unchanged); a positive sum scales every element in place
by `1 / sqrt(sum)`; and `[3, 4]` maps to `[0.6, 0.8]`. -/
theorem normalize_l2_spec (v w : List ℝ) (N : Nat)
    (h1 : sqSum v ≤ 0) (h2 : 0 < sqSum w) :
    normalize_l2 v = v ∧
    normalize_l2 w = w.map (fun x => x * (1 / Real.sqrt (sqSum w))) ∧
    normalize_l2 (List.replicate N (0 : ℝ)) = List.replicate N 0 ∧
    normalize_l2 [(3 : ℝ), 4] = [0.6, 0.8] := by
  refine ⟨?_, ?_, ?_, ?_⟩
  · simp [normalize_l2, h1]
  · simp [normalize_l2, not_le.mpr h2]
  · have hz : sqSum (List.replicate N (0 : ℝ)) = 0 := by
      rw [sqSum_eq_sum]
      simp
    simp [normalize_l2, hz]
  · have h25 : sqSum [(3 : ℝ), 4] = 25 := by
      rw [sqSum_eq_sum]
      norm_num
    have hs : Real.sqrt (sqSum [(3 : ℝ), 4]) = 5 := by
      rw [h25, show (25 : ℝ) = 5 ^ 2 by norm_num, Real.sqrt_sq (by norm_num : (0 : ℝ) ≤ 5)]
    have hne : ¬ sqSum [(3 : ℝ), 4] ≤ 0 := by
      rw [h25]
      norm_num
    rw [normalize_l2, if_neg hne]
    simp only [hs, List.map_cons, List.map_nil]
    norm_num

/-- C5 witness: the theorem applied at `v = [0, 0]`, `w = [3, 4]`, `N = 2`. -/
theorem normalize_l2_spec_witness :
    normalize_l2 [(0 : ℝ), 0] = [0, 0] ∧
    normalize_l2 [(3 : ℝ), 4]
      = [(3 : ℝ), 4].map (fun x => x * (1 / Real.sqrt (sqSum [(3 : ℝ), 4]))) ∧
    normalize_l2 (List.replicate 2 (0 : ℝ)) = List.replicate 2 0 ∧
    normalize_l2 [(3 : ℝ), 4] = [0.6, 0.8] :=
  normalize_l2_spec [0, 0] [3, 4] 2
    (by rw [sqSum_eq_sum]; norm_num)
    (by rw [sqSum_eq_sum]; norm_num)

/-- C4: `tokenize` on empty text returns the empty sequence; when the
underlying tokenizer reports overflow via a negative count, the adapter
recovers the true count as its negation, clamps it to `max_tokens`, and
resizes its output to the clamped count; and, under the tokenizer's interface
contract (a non-negative count never exceeds the `max_tokens` slots it was
given), the resulting sequence length is always at most `max_tokens`. -/
theorem tokenize_spec {Mem : Type} (env : LlamaEnv Mem) (text : String) (max_tokens : Nat)
    (hc : 0 ≤ env.tokCount text max_tokens →
      env.tokCount text max_tokens ≤ (max_tokens : Int)) :
    tokenize env "" max_tokens = [] ∧
    (text ≠ "" → env.tokCount text max_tokens < 0 →
      (tokenize env text max_tokens).length
        = min (-(env.tokCount text max_tokens)).toNat max_tokens) ∧
    (tokenize env text max_tokens).length ≤ max_tokens := by
  refine ⟨?_, ?_, ?_⟩
  · simp [tokenize]
  · intro ht hneg
    simp only [tokenize, if_neg ht, if_pos hneg, length_listResize]
    omega
  · by_cases ht : text = ""
    · simp [tokenize, ht]
    · simp only [tokenize, if_neg ht, length_listResize]
      split
      · omega
      · rename_i hpos
        have := hc (by omega)
        omega

/-- C4 witness: the theorem applied at `envW`, text `"a"`, `max_tokens = 4`. -/
theorem tokenize_spec_witness :
    tokenize envW "" 4 = [] ∧
    (("a" : String) ≠ "" → envW.tokCount "a" 4 < 0 →
      (tokenize envW "a" 4).length = min (-(envW.tokCount "a" 4)).toNat 4) ∧
    (tokenize envW "a" 4).length ≤ 4 :=
  tokenize_spec envW "a" 4 (by intro _; norm_num [envW])

/-- C9: `nativeRelease` on the null handle is a no-op with no resource
events; on a non-null handle it frees the context exactly when one is
present, frees the model exactly when one is present, frees the session
storage last, and in the fully-live case the order is context, then model,
then session storage. -/
theorem release_spec {Mem : Type} (st : EmbeddingState Mem) (c : CtxState Mem)
    (a b : Nat) :
    nativeRelease (none : Option (EmbeddingState Mem)) = [] ∧
    (Event.ctxFree ∈ nativeRelease (some st) ↔ st.ctx.isSome = true) ∧
    (Event.modelFree ∈ nativeRelease (some st) ↔ st.model = true) ∧
    (nativeRelease (some st)).getLast? = some Event.deleteState ∧
    nativeRelease (some { model := true, ctx := some c, n_embd := a, n_ctx := b })
      = [Event.ctxFree, Event.modelFree, Event.deleteState] := by
  obtain ⟨m, ctx, ne, nc⟩ := st
  cases m <;> cases ctx <;> simp [nativeRelease]

/-- C8 counterexample: the foreign call boundary performs no emptiness
validation of the model path — with a model loader that accepts the empty
path, `nativeInit` on the empty path string returns a non-null handle instead
of the null handle 0, so the empty path is not rejected before the session
component runs. -/
theorem init_empty_path_cex :
    (nativeInit envW (some "")).1 = some stInitW := by
  rfl

/-- C8 (amended): `nativeInit` validates only non-nullness of the path at the
boundary; an empty path string is passed straight to the model loader, and
whenever the loader fails on the empty path (as a real filesystem loader
does), `nativeInit` returns the null handle with the session storage freed
and nothing retained. -/
theorem init_empty_path {Mem : Type} (env : LlamaEnv Mem)
    (h : env.loadOk "" = false) :
    nativeInit env (some "") = (none, [Event.newState, Event.deleteState]) := by
  simp [nativeInit, h]

/-- C8 witness: the amended theorem applied to a loader that fails on the
empty path. -/
theorem init_empty_path_witness :
    nativeInit envLoadFail (some "") = (none, [Event.newState, Event.deleteState]) :=
  init_empty_path envLoadFail rfl

/-- C6: `nativeInit` is atomic — a call that returns a non-null handle yields
a session with model and context both present, and every failure path frees
everything it acquired before returning the null handle: a null path
allocates nothing, a load failure frees the session storage, and a
context-construction failure after the (same, succeeding) loader frees the
already-loaded model and then the session storage. -/
theorem init_atomic {Mem : Type} (env : LlamaEnv Mem) (path : String)
    (st : EmbeddingState Mem)
    (h : (nativeInit env (some path)).1 = some st) :
    (st.model = true ∧ st.ctx.isSome = true) ∧
    nativeInit env none = (none, []) ∧
    nativeInit { env with loadOk := fun _ => false } (some path)
      = (none, [Event.newState, Event.deleteState]) ∧
    nativeInit { env with ctxOk := false } (some path)
      = (none, [Event.newState, Event.modelLoadOk, Event.modelFree,
                Event.deleteState]) := by
  by_cases hl : env.loadOk path = false
  · simp [nativeInit, hl] at h
  · by_cases hcx : env.ctxOk = false
    · simp [nativeInit, hl, hcx] at h
    · refine ⟨?_, by simp [nativeInit], by simp [nativeInit], by simp [nativeInit, hl, hcx]⟩
      simp only [nativeInit, if_neg hl, if_neg hcx, Option.some.injEq] at h
      subst h
      simp

/-- C6 witness: the theorem applied at `envW` and path `"m"`, whose `init`
succeeds with session `stInitW`. -/
theorem init_atomic_witness :
    (stInitW.model = true ∧ stInitW.ctx.isSome = true) ∧
    nativeInit envW none = (none, []) ∧
    nativeInit { envW with loadOk := fun _ => false } (some "m")
      = (none, [Event.newState, Event.deleteState]) ∧
    nativeInit { envW with ctxOk := false } (some "m")
      = (none, [Event.newState, Event.modelLoadOk, Event.modelFree,
                Event.deleteState]) :=
  init_atomic envW "m" stInitW rfl

/-- C3: an input text whose tokenization yields zero tokens — in particular
the empty string, whose tokenization is the empty sequence — makes
`nativeEmbed` return the absent (null) result, never a zero vector or any
other vector. -/
theorem embed_empty_tokens_fails {Mem : Type} (env : LlamaEnv Mem)
    (st : EmbeddingState Mem) (text : String)
    (htok : tokenize env text st.n_ctx = []) :
    tokenize env "" st.n_ctx = [] ∧
    (nativeEmbed env (some st) (some text)).1 = none := by
  refine ⟨by simp [tokenize], ?_⟩
  obtain ⟨m, ctx, ne, nc⟩ := st
  simp only at htok
  cases ctx with
  | none => rfl
  | some c =>
    cases m with
    | false => rfl
    | true => simp [nativeEmbed, htok]

/-- C3 witness: the theorem applied at `envW`, session `stW` and the empty
string. -/
theorem embed_empty_tokens_fails_witness :
    tokenize envW "" stW.n_ctx = [] ∧
    (nativeEmbed envW (some stW) (some "")).1 = none :=
  embed_empty_tokens_fails envW stW "" (by simp [tokenize])

/-- C10: with `tokenize` invoked at `max_tokens = n_ctx` as `nativeEmbed`
does, and under the tokenizer's interface contract (a non-negative count
never exceeds the requested slots), the token sequence already has length at
most `n_ctx`: the condition `tokens.size() > n_ctx` of the defensive
truncation branch is false for every input text, and the truncation is the
identity. -/
theorem embed_truncation_dead {Mem : Type} (env : LlamaEnv Mem)
    (st : EmbeddingState Mem) (text : String)
    (hc : 0 ≤ env.tokCount text st.n_ctx →
      env.tokCount text st.n_ctx ≤ (st.n_ctx : Int)) :
    ¬ (tokenize env text st.n_ctx).length > st.n_ctx ∧
    truncTokens (tokenize env text st.n_ctx) st.n_ctx
      = tokenize env text st.n_ctx := by
  have hle := tokenize_length_le env text st.n_ctx hc
  exact ⟨by omega, by rw [truncTokens, if_neg (by omega)]⟩

/-- C10 witness: the theorem applied at `envW`, session `stW`, text `"a"`. -/
theorem embed_truncation_dead_witness :
    ¬ (tokenize envW "a" stW.n_ctx).length > stW.n_ctx ∧
    truncTokens (tokenize envW "a" stW.n_ctx) stW.n_ctx
      = tokenize envW "a" stW.n_ctx :=
  embed_truncation_dead envW stW "a" (by intro _; norm_num [envW, stW])

/-- C2: two sequential `nativeEmbed` calls on the same session with the same
input text produce identical output: the memory-clear step makes the decode
input independent of the context's prior sequence memory, and a call never
changes the session's model, dimensions or context presence, so the result is
a deterministic function of the text and the session's immutable
configuration. -/
theorem embed_deterministic {Mem : Type} (env : LlamaEnv Mem)
    (st : EmbeddingState Mem) (text : String) :
    (nativeEmbed env (nativeEmbed env (some st) (some text)).2.1 (some text)).1
      = (nativeEmbed env (some st) (some text)).1 := by
  obtain ⟨m, ctx, ne, nc⟩ := st
  cases ctx with
  | none => rfl
  | some c =>
    cases m with
    | false => rfl
    | true =>
      by_cases htok : tokenize env text nc = []
      · simp [nativeEmbed, htok]
      · rw [nativeEmbed_core env c ne nc text htok]
        rw [nativeEmbed_core env _ ne nc text htok]

/-- C7: every `nativeEmbed` call that reaches batch construction (live
session, non-empty tokenization) constructs the batch once and releases it
exactly once before returning, on the success and decode-failure paths alike;
and when the decode step returns a non-zero result the call still returns the
null result (after the batch release recorded in the same trace). -/
theorem embed_batch_freed {Mem : Type} (env : LlamaEnv Mem)
    (st : EmbeddingState Mem) (text : String)
    (hm : st.model = true) (hcx : st.ctx.isSome = true)
    (ht : ¬ tokenize env text st.n_ctx = []) :
    ((nativeEmbed env (some st) (some text)).2.2.count Event.batchInitEv = 1 ∧
     (nativeEmbed env (some st) (some text)).2.2.count Event.batchFreeEv = 1) ∧
    ((env.decode env.memClear
        (buildBatch (truncTokens (tokenize env text st.n_ctx) st.n_ctx))).1 ≠ 0 →
      (nativeEmbed env (some st) (some text)).1 = none) := by
  obtain ⟨m, ctx, ne, nc⟩ := st
  simp only at hm hcx ht ⊢
  cases ctx with
  | none => simp at hcx
  | some c =>
    subst hm
    rw [nativeEmbed_core env c ne nc text ht]
    refine ⟨⟨by simp [List.count_cons], by simp [List.count_cons]⟩, ?_⟩
    intro hd
    rcases hdec : env.decode env.memClear
        (buildBatch (truncTokens (tokenize env text nc) nc)) with ⟨dres, mem2, emb2⟩
    rw [hdec] at hd
    simp only at hd
    simp [embedResult, hdec, hd]

/-- C7 witness: the theorem applied at `envDecodeFail` (decode returns 1),
session `stW`, text `"a"`. -/
theorem embed_batch_freed_witness :
    ((nativeEmbed envDecodeFail (some stW) (some "a")).2.2.count Event.batchInitEv = 1 ∧
     (nativeEmbed envDecodeFail (some stW) (some "a")).2.2.count Event.batchFreeEv = 1) ∧
    (nativeEmbed envDecodeFail (some stW) (some "a")).1 = none := by
  have h := embed_batch_freed envDecodeFail stW "a" rfl rfl (by decide)
  exact ⟨h.1, h.2 (by decide)⟩

/-- C1: every `nativeEmbed` call that returns a non-null result returns
exactly `n_embd` floats, and they are the L2 normalization of the raw pooled
vector this very call's decode step left in the context (the `n_embd`-float
copy `pooledCopy embd n_embd` of the pooled buffer `embd`, pinned by the
decode equation).  Either that raw pooled copy was degenerate (sum of squares
≤ 0, in particular all-zero) and the result is the raw copy unchanged, or the
result's L2 norm is exactly 1. -/
theorem embed_success_normalized {Mem : Type} (env : LlamaEnv Mem)
    (st : EmbeddingState Mem) (text : String) (out : List ℝ)
    (s2 : Option (EmbeddingState Mem)) (ev : List Event)
    (h : nativeEmbed env (some st) (some text) = (some out, s2, ev)) :
    out.length = st.n_embd ∧
    ∃ (mem2 : Mem) (embd : List ℝ),
      env.decode env.memClear
          (buildBatch (truncTokens (tokenize env text st.n_ctx) st.n_ctx))
        = (0, mem2, some embd) ∧
      out = normalize_l2 (pooledCopy embd st.n_embd) ∧
      ((sqSum (pooledCopy embd st.n_embd) ≤ 0 ∧ out = pooledCopy embd st.n_embd) ∨
       (0 < sqSum (pooledCopy embd st.n_embd) ∧ Real.sqrt (sqSum out) = 1)) := by
  obtain ⟨m, ctx, ne, nc⟩ := st
  simp only at h ⊢
  cases ctx with
  | none => simp [nativeEmbed] at h
  | some c =>
    cases m with
    | false => simp [nativeEmbed] at h
    | true =>
      by_cases htok : tokenize env text nc = []
      · simp [nativeEmbed, htok] at h
      · rw [nativeEmbed_core env c ne nc text htok] at h
        have hres : embedResult env ne nc text = some out := congrArg Prod.fst h
        rcases hdec : env.decode env.memClear
            (buildBatch (truncTokens (tokenize env text nc) nc)) with ⟨dres, mem2, emb2⟩
        rw [embedResult, hdec] at hres
        by_cases hd : dres = 0
        · subst hd
          cases emb2 with
          | none => simp at hres
          | some embd =>
            by_cases ha : env.allocOk
            · simp only [ha, if_true, ne_eq, not_true_eq_false, if_false,
                Option.some.injEq] at hres
              have hfold : (List.range ne).map (fun i => embd.getD i 0)
                  = pooledCopy embd ne := rfl
              rw [hfold] at hres
              refine ⟨?_, mem2, embd, rfl, hres.symm, ?_⟩
              · rw [← hres, length_normalize_l2]
                simp [pooledCopy]
              · rcases le_or_lt (sqSum (pooledCopy embd ne)) 0 with hle | hpos
                · left
                  refine ⟨hle, ?_⟩
                  rw [← hres, normalize_l2, if_pos hle]
                · right
                  refine ⟨hpos, ?_⟩
                  rw [← hres, sqSum_normalize_l2 _ hpos, Real.sqrt_one]
            · simp [ha] at hres
        · simp [hd] at hres

/-- C1 witness: at `envW`, session `stW` and text `"a"`, the call succeeds;
the decode step leaves the pooled buffer `[0, 0]`, whose copy is all-zero and
is returned unchanged. -/
theorem embed_success_normalized_witness :
    [(0 : ℝ), 0].length = stW.n_embd ∧
    ∃ (mem2 : Unit) (embd : List ℝ),
      envW.decode envW.memClear
          (buildBatch (truncTokens (tokenize envW "a" stW.n_ctx) stW.n_ctx))
        = (0, mem2, some embd) ∧
      [(0 : ℝ), 0] = normalize_l2 (pooledCopy embd stW.n_embd) ∧
      ((sqSum (pooledCopy embd stW.n_embd) ≤ 0 ∧
         [(0 : ℝ), 0] = pooledCopy embd stW.n_embd) ∨
       (0 < sqSum (pooledCopy embd stW.n_embd) ∧
         Real.sqrt (sqSum [(0 : ℝ), 0]) = 1)) := by
  have hnorm : normalize_l2 [(0 : ℝ), 0] = [0, 0] := by
    have h0 : sqSum [(0 : ℝ), 0] = 0 := by
      rw [sqSum_eq_sum]
      norm_num
    simp [normalize_l2, h0]
  have hrun := nativeEmbed_core envW ⟨(), none⟩ 2 4 "a" (by decide)
  refine embed_success_normalized envW stW "a" [0, 0]
    (some ⟨true, some ⟨(), some [0, 0]⟩, 2, 4⟩)
    [Event.memClearEv, Event.batchInitEv, Event.decodeCall, Event.batchFreeEv] ?_
  rw [show stW = (⟨true, some ⟨(), none⟩, 2, 4⟩ : EmbeddingState Unit) from rfl, hrun]
  have hdec : envW.decode envW.memClear
      (buildBatch (truncTokens (tokenize envW "a" 4) 4)) = (0, (), some [0, 0]) := rfl
  have hres : embedResult envW 2 4 "a" = some [(0 : ℝ), 0] := by
    simp only [embedResult, hdec]
    simp [envW, List.range_succ, hnorm]
  rw [hres, hdec]

end Qwen3Jni
